import Mathlib

/-!
Verification of the interview-helper backend core: ticket store, session
context manager (scratch map), audio fan-out, text coalescer, audio buffer
accumulation, and the AI worker pool.  Each Python component is shallowly
embedded as executable Lean definitions; theorems settle the specification
claims about them.

Conventions:
- `time.time()` values are modelled as `Int`; only their ordering matters.
- Python `dict`s are modelled either as association lists (ticket store,
  where iteration order matters for the cleanup sweep) or as functions to
  `Option` (the context-manager maps, where only lookup matters).
- A Python function that can raise (assertion failure, `KeyError`) returns
  `Option`, with `none` for the raising outcome.
-/

set_option autoImplicit false

namespace InterviewHelper

/-- Timestamps as produced by `time.time()`; modelled as integers since only
their ordering is ever inspected. -/
abbrev Time := Int

/-! ## Ticket store (`security/tickets.py`) -/

/-- Embedding of the `Ticket` dataclass. -/
structure Ticket where
  ticket_id : String
  user_id : String
  client_ip : String
  created_at : Time
  expires_at : Time
  used : Bool
deriving DecidableEq, Repr

/-- Source: `return current_time >= self.expires_at`.  In Python the
`current_time` parameter defaults to `time.time()` evaluated once at module
import; call sites that omit the argument therefore pass that frozen value.
The embedding always takes the time explicitly and the frozen value is made
explicit at each call site that omits it in the source. -/
def Ticket.is_expired (t : Ticket) (current_time : Time) : Bool :=
  decide (current_time ≥ t.expires_at)

/-- Source: `return not self.used and not self.is_expired(current_time)`
(same frozen-default remark as `is_expired`). -/
def Ticket.is_valid (t : Ticket) (current_time : Time) : Bool :=
  !t.used && !(t.is_expired current_time)

/-- Lookup in an association list modelling a Python `dict` keyed by strings
(`dict.get(k)` / `dict.get(k, None)`). -/
def dictGet {β : Type} : List (String × β) → String → Option β
  | [], _ => none
  | (k, v) :: rest, key => if k = key then some v else dictGet rest key

/-- Update-or-append, modelling `d[k] = v`. -/
def dictSet {β : Type} : List (String × β) → String → β → List (String × β)
  | [], key, v => [(key, v)]
  | (k, w) :: rest, key, v =>
    if k = key then (key, v) :: rest else (k, w) :: dictSet rest key v

/-- Removal, modelling `d.pop(k, None)`.  A Python dict holds each key at
most once, so removing every matching pair coincides with removing the one
binding. -/
def dictPop {β : Type} (m : List (String × β)) (key : String) : List (String × β) :=
  m.filter (fun p => !(decide (p.1 = key)))

theorem dictGet_set_self {β : Type} (m : List (String × β)) (k : String) (v : β) :
    dictGet (dictSet m k v) k = some v := by
  induction m with
  | nil => simp [dictGet, dictSet]
  | cons p rest ih =>
    obtain ⟨k', w⟩ := p
    by_cases h : k' = k
    · subst h
      simp [dictGet, dictSet]
    · simp [dictGet, dictSet, h, ih]

theorem dictGet_set_ne {β : Type} (m : List (String × β)) (k k' : String) (v : β)
    (h : k' ≠ k) : dictGet (dictSet m k v) k' = dictGet m k' := by
  have hks : k ≠ k' := Ne.symm h
  induction m with
  | nil => simp [dictGet, dictSet, hks]
  | cons p rest ih =>
    obtain ⟨k₀, w⟩ := p
    by_cases h₀ : k₀ = k
    · subst h₀
      simp [dictGet, dictSet, hks]
    · simp [dictGet, dictSet, h₀, ih]

theorem dictGet_pop_self {β : Type} (m : List (String × β)) (k : String) :
    dictGet (dictPop m k) k = none := by
  induction m with
  | nil => simp [dictGet, dictPop]
  | cons p rest ih =>
    obtain ⟨k', w⟩ := p
    by_cases h : k' = k
    · simpa [dictPop, h] using ih
    · simpa [dictPop, dictGet, h] using ih

theorem dictGet_eq_none_of_not_mem {β : Type} (m : List (String × β)) (k : String)
    (h : k ∉ m.map Prod.fst) : dictGet m k = none := by
  induction m with
  | nil => simp [dictGet]
  | cons p rest ih =>
    obtain ⟨k', w⟩ := p
    simp only [List.map_cons, List.mem_cons, not_or] at h
    have hne : k' ≠ k := Ne.symm h.1
    simp [dictGet, hne, ih h.2]

theorem dictGet_filter_none {β : Type} (m : List (String × β)) (k : String)
    (f : String × β → Bool) (h : dictGet m k = none) :
    dictGet (m.filter f) k = none := by
  induction m with
  | nil => simp [dictGet]
  | cons p rest ih =>
    obtain ⟨k', w⟩ := p
    by_cases hk : k' = k
    · simp [dictGet, hk] at h
    · by_cases hf : f (k', w)
      · simp [dictGet, hk] at h
        simpa [dictGet, hf, hk] using ih h
      · simp [dictGet, hk] at h
        simpa [hf] using ih h

theorem dictGet_cleanup_none (l : List (String × Ticket)) (tid : String) (now : Time)
    (t : Ticket) (hnd : (l.map Prod.fst).Nodup) (ht : dictGet l tid = some t)
    (hexp : t.expires_at < now) :
    dictGet (l.filter (fun p => !(decide (p.2.expires_at < now)))) tid = none := by
  induction l with
  | nil => simp [dictGet] at ht
  | cons p rest ih =>
    obtain ⟨k', w⟩ := p
    simp only [List.map_cons, List.nodup_cons, List.mem_map] at hnd
    by_cases hk : k' = tid
    · have hw : w = t := by simpa [dictGet, hk] using ht
      have hrest : dictGet rest tid = none := by
        apply dictGet_eq_none_of_not_mem
        intro hmem
        rcases List.mem_map.mp hmem with ⟨a, ha, hfst⟩
        exact hnd.1 ⟨a, ha, hfst.trans hk.symm⟩
      rw [List.filter_cons]
      rw [if_neg (by simp [hw, hexp])]
      exact dictGet_filter_none rest tid _ hrest
    · have ht' : dictGet rest tid = some t := by simpa [dictGet, hk] using ht
      have hrec := ih hnd.2 ht'
      rw [List.filter_cons]
      by_cases hf : w.expires_at < now
      · rw [if_neg (by simp [hf])]
        exact hrec
      · rw [if_pos (by simp [hf])]
        simpa [dictGet, hk] using hrec

theorem dictGet_cleanup_keep (l : List (String × Ticket)) (tid : String) (now : Time)
    (t : Ticket) (hnd : (l.map Prod.fst).Nodup) (ht : dictGet l tid = some t)
    (hexp : ¬ t.expires_at < now) :
    dictGet (l.filter (fun p => !(decide (p.2.expires_at < now)))) tid = some t := by
  induction l with
  | nil => simp [dictGet] at ht
  | cons p rest ih =>
    obtain ⟨k', w⟩ := p
    simp only [List.map_cons, List.nodup_cons, List.mem_map] at hnd
    by_cases hk : k' = tid
    · have hw : w = t := by simpa [dictGet, hk] using ht
      rw [List.filter_cons]
      rw [if_pos (by simp [hw, hexp])]
      simp [dictGet, hk, hw]
    · have ht' : dictGet rest tid = some t := by simpa [dictGet, hk] using ht
      have hrec := ih hnd.2 ht'
      rw [List.filter_cons]
      by_cases hf : w.expires_at < now
      · rw [if_neg (by simp [hf])]
        exact hrec
      · rw [if_pos (by simp [hf])]
        simpa [dictGet, hk] using hrec

/-- Embedding of `TicketStore` (the `_tickets` dict plus the configured
default expiration). -/
structure TicketStore where
  tickets : List (String × Ticket)
  default_expiration : Time
deriving Repr

/-- Source `_cleanup_expired`: collects every `ticket_id` whose ticket has
`expires_at < current_time` and pops each; net effect is keeping the
non-expired bindings. -/
def TicketStore.cleanup_expired (s : TicketStore) (current_time : Time) : TicketStore :=
  { s with tickets := s.tickets.filter (fun p => !(decide (p.2.expires_at < current_time))) }

/-- Source `generate_ticket`; the random `secrets.token_urlsafe(32)` id is
taken as a parameter. -/
def TicketStore.generate_ticket (s : TicketStore) (ticket_id user_id client_ip : String)
    (current_time : Time) : Ticket × TicketStore :=
  let t : Ticket :=
    { ticket_id := ticket_id, user_id := user_id, client_ip := client_ip,
      created_at := current_time, expires_at := current_time + s.default_expiration,
      used := false }
  (t, TicketStore.cleanup_expired { s with tickets := dictSet s.tickets ticket_id t }
        current_time)

set_option linter.unusedVariables false

/-- Source `validate_ticket(ticket_id, client_ip, current_time)`.

`importTime` is the `time.time()` value frozen into the parameter defaults
when `tickets.py` was imported: the body calls `ticket.is_valid()` with no
argument, so the validity (expiry) check uses `importTime`, and the
`current_time` parameter is never read — exactly as in the source. -/
def TicketStore.validate_ticket (importTime : Time) (s : TicketStore)
    (ticket_id client_ip : String) (current_time : Time) : Option Ticket × TicketStore :=
  match dictGet s.tickets ticket_id with
  | none => (none, s)
  | some ticket =>
    if !(ticket.is_valid importTime) then
      (none, { s with tickets := dictPop s.tickets ticket_id })
    else if ticket.client_ip ≠ client_ip then
      (none, s)
    else
      let t := { ticket with used := true }
      (some t, { s with tickets := dictSet s.tickets ticket_id t })

/-- A concrete ticket used to exhibit the frozen-default expiry check:
created at time 0, expiring at time 10. -/
def tkTicket : Ticket :=
  { ticket_id := "t1", user_id := "u1", client_ip := "9.9.9.9",
    created_at := 0, expires_at := 10, used := false }

/-- A store holding exactly `tkTicket`. -/
def tkStore : TicketStore := { tickets := [("t1", tkTicket)], default_expiration := 300 }

/-- C1: the claim says `validate_ticket(ticket_id, client_ip, now)` returns
the ticket only if it is unexpired at the given `now`.  The code checks
expiry with `ticket.is_valid()` against the module-import-time default
instead: with import time 0, a ticket expired at time 10 is still returned
by a validation performed at `now = 20` (matching IP, unused), although
`is_expired 20` holds.  The repository's own `test_ticket_expiration`
expects such a validation to fail. -/
theorem validate_ticket_expiry_uses_frozen_default :
    tkTicket.is_expired 20 = true
    ∧ (TicketStore.validate_ticket 0 tkStore "t1" "9.9.9.9" 20).1
        = some { tkTicket with used := true } := by
  constructor
  · decide
  · rfl

/-- C4 counterexample: a successful validation marks the ticket used but
does not remove it — the store still maps `"t1"` to the used ticket, while
the claim says a ticket is removed when it transitions to used. -/
theorem validate_ticket_success_keeps_ticket :
    (TicketStore.validate_ticket 0 tkStore "t1" "9.9.9.9" 0).1
        = some { tkTicket with used := true }
    ∧ dictGet (TicketStore.validate_ticket 0 tkStore "t1" "9.9.9.9" 0).2.tickets "t1"
        = some { tkTicket with used := true } := by
  constructor
  · rfl
  · rfl

/-- C4 (amended): on a miss the store is unchanged; a ticket failing the
validity check (already used, or expired relative to the frozen import-time
default) is removed by the attempt; on IP mismatch the store is unchanged
(ticket kept, still unused); on success the ticket is marked used and
*kept* in the store; separately, the expiry sweep removes a ticket exactly
when `expires_at < now` — a ticket with `expires_at ≥ now` survives the
sweep unchanged, so at the `expires_at = now` boundary the ticket counts as
expired (`is_expired` uses `≥`) yet is kept by the sweep (which uses
`<`). -/
theorem validate_ticket_removal_behaviour
    (importTime : Time) (s : TicketStore) (tid ip : String) (now : Time)
    (hnd : (s.tickets.map Prod.fst).Nodup) :
    (dictGet s.tickets tid = none →
       TicketStore.validate_ticket importTime s tid ip now = (none, s))
    ∧ (∀ t, dictGet s.tickets tid = some t →
        (t.is_valid importTime = false →
           (TicketStore.validate_ticket importTime s tid ip now).1 = none
           ∧ dictGet (TicketStore.validate_ticket importTime s tid ip now).2.tickets tid
               = none)
        ∧ (t.is_valid importTime = true → t.client_ip ≠ ip →
           TicketStore.validate_ticket importTime s tid ip now = (none, s))
        ∧ (t.is_valid importTime = true → t.client_ip = ip →
           (TicketStore.validate_ticket importTime s tid ip now).1
               = some { t with used := true }
           ∧ dictGet (TicketStore.validate_ticket importTime s tid ip now).2.tickets tid
               = some { t with used := true }))
    ∧ (∀ t, dictGet s.tickets tid = some t → t.expires_at < now →
        dictGet (s.cleanup_expired now).tickets tid = none)
    ∧ (∀ t, dictGet s.tickets tid = some t → ¬ t.expires_at < now →
        dictGet (s.cleanup_expired now).tickets tid = some t) := by
  refine ⟨?_, ?_, ?_, ?_⟩
  · intro h
    simp [TicketStore.validate_ticket, h]
  · intro t ht
    refine ⟨?_, ?_, ?_⟩
    · intro hv
      constructor
      · simp [TicketStore.validate_ticket, ht, hv]
      · simp [TicketStore.validate_ticket, ht, hv, dictGet_pop_self]
    · intro hv hip
      simp [TicketStore.validate_ticket, ht, hv, hip]
    · intro hv hip
      constructor
      · simp [TicketStore.validate_ticket, ht, hv, hip]
      · simp [TicketStore.validate_ticket, ht, hv, hip, dictGet_set_self]
  · intro t ht hexp
    simpa [TicketStore.cleanup_expired] using
      dictGet_cleanup_none s.tickets tid now t hnd ht hexp
  · intro t ht hexp
    simpa [TicketStore.cleanup_expired] using
      dictGet_cleanup_keep s.tickets tid now t hnd ht hexp

/-- Witness for the amended C4 theorem at a concrete store: the success
branch on `tkStore`. -/
theorem validate_ticket_removal_behaviour_witness :
    (tkStore.tickets.map Prod.fst).Nodup
    ∧ ((TicketStore.validate_ticket 0 tkStore "t1" "9.9.9.9" 5).1
          = some { tkTicket with used := true }
        ∧ dictGet (TicketStore.validate_ticket 0 tkStore "t1" "9.9.9.9" 5).2.tickets "t1"
          = some { tkTicket with used := true }) :=
  ⟨by decide,
    ((validate_ticket_removal_behaviour 0 tkStore "t1" "9.9.9.9" 5 (by decide)).2.1
        tkTicket (by decide)).2.2 (by decide) (by decide)⟩

/-! ## Audio fan-out (`AppContextManager.ingest_audio`) -/

/-- Behaviour of one registered audio consumer on one chunk: `none` means
the coroutine returns normally, `some e` means it raises exception `e`. -/
abbrev ConsumerBehaviour (χ : Type) := χ → Option String

/-- Helper for `ingest_audio`, carrying the index of the next consumer to
invoke.  Source: `for consumer, _ in self.audio_ingest_consumers: await
consumer(ctx, audio_chunk)` — there is no `try`/`except`, so an exception
raised by a consumer aborts the loop and propagates to the caller.  Returns
the indices of the consumers that were invoked on the chunk together with
the propagated exception, if any. -/
def ingest_audio_dispatch {χ : Type} :
    List (ConsumerBehaviour χ) → χ → Nat → List Nat × Option String
  | [], _, _ => ([], none)
  | c :: cs, chunk, i =>
    match c chunk with
    | some e => ([i], some e)
    | none =>
      let r := ingest_audio_dispatch cs chunk (i + 1)
      (i :: r.1, r.2)

/-- Embedding of `AppContextManager.ingest_audio` restricted to its
observable dispatch behaviour. -/
def ingest_audio {χ : Type} (consumers : List (ConsumerBehaviour χ)) (chunk : χ) :
    List Nat × Option String :=
  ingest_audio_dispatch consumers chunk 0

/-- C3 counterexample: with two registered consumers where the first raises
on the chunk, `ingest_audio` invokes only consumer 0, the exception
propagates uncaught, and consumer 1 never receives the chunk — the claim
says the error is caught and every other consumer still receives it. -/
theorem ingest_audio_error_not_isolated :
    ingest_audio [fun _ => some "boom", fun _ => (none : Option String)] (0 : Nat)
      = ([0], some "boom")
    ∧ 1 ∉ (ingest_audio [fun _ => some "boom", fun _ => (none : Option String)] (0 : Nat)).1 := by
  constructor
  · rfl
  · decide

theorem ingest_audio_dispatch_all_none {χ : Type} (cs : List (ConsumerBehaviour χ))
    (chunk : χ) (i : Nat) (h : ∀ c ∈ cs, c chunk = none) :
    ingest_audio_dispatch cs chunk i = (List.range' i cs.length, none) := by
  induction cs generalizing i with
  | nil => simp [ingest_audio_dispatch, List.range']
  | cons c₀ rest ih =>
    have h₀ : c₀ chunk = none := h c₀ (by simp)
    have hrest : ∀ c ∈ rest, c chunk = none := fun c hm => h c (by simp [hm])
    simp [ingest_audio_dispatch, h₀, ih (i + 1) hrest, List.range']

theorem ingest_audio_dispatch_split {χ : Type} (pre post : List (ConsumerBehaviour χ))
    (c : ConsumerBehaviour χ) (chunk : χ) (e : String) (i : Nat)
    (hpre : ∀ c' ∈ pre, c' chunk = none) (hc : c chunk = some e) :
    ingest_audio_dispatch (pre ++ c :: post) chunk i
      = (List.range' i (pre.length + 1), some e) := by
  induction pre generalizing i with
  | nil => simp [ingest_audio_dispatch, hc, List.range']
  | cons c₀ rest ih =>
    have h₀ : c₀ chunk = none := hpre c₀ (by simp)
    have hrest : ∀ c' ∈ rest, c' chunk = none := fun c' hm => hpre c' (by simp [hm])
    simp [ingest_audio_dispatch, h₀, ih (i + 1) hrest, List.range']

/-- C3 (amended): consumers are invoked in registration order; when every
consumer returns normally, all of them receive the chunk; when a consumer
raises, the consumers before it have already received the chunk, the
exception propagates uncaught out of `ingest_audio`, and the consumers
after the failing one do not receive that chunk. -/
theorem ingest_audio_first_error_aborts_dispatch {χ : Type}
    (cs : List (ConsumerBehaviour χ)) (chunk : χ) :
    ((∀ c ∈ cs, c chunk = none) →
       ingest_audio cs chunk = (List.range cs.length, none))
    ∧ (∀ pre c post e, cs = pre ++ c :: post →
        (∀ c' ∈ pre, c' chunk = none) → c chunk = some e →
        ingest_audio cs chunk = (List.range (pre.length + 1), some e)) := by
  constructor
  · intro h
    rw [List.range_eq_range']
    exact ingest_audio_dispatch_all_none cs chunk 0 h
  · intro pre c post e hcs hpre hc
    rw [hcs, List.range_eq_range']
    exact ingest_audio_dispatch_split pre post c chunk e 0 hpre hc

/-- Witness for the amended C3 theorem: a three-consumer list whose middle
consumer raises; only consumers 0 and 1 are invoked. -/
theorem ingest_audio_first_error_witness :
    ingest_audio
        [fun _ => (none : Option String), fun _ => some "stt down", fun _ => none]
        (0 : Nat)
      = ([0, 1], some "stt down") := by
  have h := (ingest_audio_first_error_aborts_dispatch
      [fun _ => (none : Option String), fun _ => some "stt down", fun _ => none] (0 : Nat)).2
      [fun _ => (none : Option String)] (fun _ => some "stt down") [fun _ => none]
      "stt down" rfl (by intro c' hm; simp at hm; rw [hm]) rfl
  simpa using h

/-! ## Audio buffer accumulation (`audio_processing_task`) -/

/-- One iteration of the `audio_processing_task` receive loop after the
`to_pcm` conversion: the converted frames `chunkData` are appended to the
session-local buffer (`processed_audio_buffer.extend(chunk.data)`); if
`len(processed_audio_buffer) > 100` the whole buffer is emitted as one
`AudioChunk` and cleared, otherwise nothing is emitted.  Frames are kept
abstract. -/
def audio_buffer_step {φ : Type} (buffer chunkData : List φ) : List φ × Option (List φ) :=
  let b := buffer ++ chunkData
  if 100 < b.length then ([], some b) else (b, none)

/-- The receive loop over a finite track, followed by the `finally:` block
that flushes a non-empty remaining buffer. -/
def audio_processing_run {φ : Type} (chunks : List (List φ)) : List (List φ) :=
  let r := chunks.foldl
    (fun acc chunkData =>
      let s := audio_buffer_step acc.1 chunkData
      (s.1, acc.2 ++ s.2.toList))
    (([] : List φ), ([] : List (List φ)))
  if 0 < r.1.length then r.2 ++ [r.1] else r.2

/-- C8 counterexample: a buffer holding exactly 100 frames is not flushed —
the source guard is `len(processed_audio_buffer) > 100`, so at exactly 100
frames the step emits nothing, while the claim says an at-least-100-frame
buffer is flushed. -/
theorem audio_buffer_exactly_100_not_flushed :
    (audio_buffer_step ([] : List Nat) (List.replicate 100 0)).2 = none
    ∧ (List.replicate 100 (0 : Nat)).length = 100 := by
  constructor
  · simp [audio_buffer_step]
  · simp

/-- C8 (amended): the buffer is flushed exactly when it holds strictly more
than 100 frames after appending the incoming converted frames (i.e. at 101
or more); at 100 or fewer frames it keeps accumulating, so a buffer of
exactly 100 frames is retained. -/
theorem audio_buffer_step_flush_iff {φ : Type} (buffer chunkData : List φ) :
    (100 < buffer.length + chunkData.length →
       audio_buffer_step buffer chunkData = ([], some (buffer ++ chunkData)))
    ∧ (buffer.length + chunkData.length ≤ 100 →
       audio_buffer_step buffer chunkData = (buffer ++ chunkData, none)) := by
  constructor
  · intro h
    simp only [audio_buffer_step, List.length_append]
    rw [if_pos h]
  · intro h
    simp only [audio_buffer_step, List.length_append]
    rw [if_neg (by omega)]

/-- Witness for the amended C8 theorem: 101 buffered frames flush, 100 do
not. -/
theorem audio_buffer_step_flush_iff_witness :
    (100 < (List.replicate 101 (0 : Nat)).length + ([] : List Nat).length)
    ∧ audio_buffer_step (List.replicate 101 (0 : Nat)) ([] : List Nat)
        = ([], some (List.replicate 101 (0 : Nat) ++ [])) :=
  ⟨by simp, (audio_buffer_step_flush_iff (List.replicate 101 (0 : Nat)) []).1 (by simp)⟩

/-! ## Session context manager scratch map (`session_context_manager.py`) -/

/-- A scratch-map key as used in the source: the tuple `(key, session_id)`.
`ResourceKey` is a frozen dataclass compared by its `name` string, and
session ids are opaque, so the pair is a string and a numeric id. -/
abbrev RKey := String × Nat

/-- State of `AppContextManager` restricted to the scratch map.  Python
dicts are modelled as functions to `Option`.  `store` values are
`Option V` because a Python value may itself be `None`.  `waiting_events`
maps a key to the set-state of its `anyio.Event`
(`defaultdict(anyio.Event)`); `detached_set` records event objects that
teardown set and then removed from the dict, since a waiter holding such an
event object is still woken.  `used_sids` is a ghost set recording every
session id ever allocated: ULIDs are unique process-wide and never
reused. -/
structure CMState (V : Type) where
  store : RKey → Option (Option V)
  store_keys : Nat → List RKey
  waiting_events : RKey → Option Bool
  detached_set : List RKey
  session_data : Nat → Bool
  active_sessions : Nat → Bool
  used_sids : Nat → Bool

/-- Source `new_session`: allocates a fresh `SessionId(ULID())` — freshness
is the ULID uniqueness guarantee, modelled through the `used_sids` ghost
set — records session data and marks the session active.  The coalescer and
task-group plumbing is outside the scratch-map model. -/
def new_session {V : Type} (st : CMState V) (sid : Nat) : Option (CMState V) :=
  if st.used_sids sid then none
  else some { st with
    session_data := fun s => if s = sid then true else st.session_data s
    active_sessions := fun s => if s = sid then true else st.active_sessions s
    used_sids := fun s => if s = sid then true else st.used_sids s }

/-- Source `register`: asserts the session is active and the key not yet in
the store, stores the value, appends the key to `store_keys[session_id]`,
and sets the waiter event if one exists.  `none` models a failed
assertion. -/
def register {V : Type} (st : CMState V) (sid : Nat) (key : String) (v : Option V) :
    Option (CMState V) :=
  if st.active_sessions sid = false then none
  else if (st.store (key, sid)).isSome then none
  else some { st with
    store := fun k => if k = (key, sid) then some v else st.store k
    store_keys := fun s =>
      if s = sid then st.store_keys sid ++ [(key, sid)] else st.store_keys s
    waiting_events :=
      if (st.waiting_events (key, sid)).isSome then
        fun k => if k = (key, sid) then some true else st.waiting_events k
      else st.waiting_events }

/-- Source `get`: asserts the session is active, then returns
`self.store.get((key, session_id), None)` — a stored Python `None` and a
missing key are both returned as `None`. -/
def get {V : Type} (st : CMState V) (sid : Nat) (key : String) : Option (Option V) :=
  if st.active_sessions sid then some ((st.store (key, sid)).getD none) else none

/-- Observable outcome of one `get_or_wait` call entering the function. -/
inductive GowOutcome (V : Type) where
  | inactive
  | returned (v : V)
  | resumed (v : Option V)
  | resumedKeyError
  | blocked
deriving DecidableEq, Repr

/-- Source `get_or_wait`: asserts the session is active; a stored value
that `is not None` is returned immediately; otherwise
`waiting_events[(key, session_id)]` is looked up (a `defaultdict`, so an
unset event is created when absent) and awaited outside the lock.  If the
event is already set the await returns at once and `store[(key,
session_id)]` is read (a `KeyError` when absent); if it is unset the caller
blocks on the event.  Returns the outcome and the state after the call. -/
def get_or_wait_start {V : Type} (st : CMState V) (sid : Nat) (key : String) :
    GowOutcome V × CMState V :=
  if st.active_sessions sid = false then (.inactive, st)
  else
    match (st.store (key, sid)).getD none with
    | some v => (.returned v, st)
    | none =>
      let st' := { st with waiting_events := fun k =>
        if k = (key, sid) then some ((st.waiting_events (key, sid)).getD false)
        else st.waiting_events k }
      if (st.waiting_events (key, sid)).getD false then
        match st.store (key, sid) with
        | some v => (.resumed v, st')
        | none => (.resumedKeyError, st')
      else (.blocked, st')

/-- Sequential `del store[k]` over a list of keys; `none` models the
`KeyError` raised when a key is missing at its turn. -/
def delAllStrict {β : Type} : List RKey → (RKey → Option β) → Option (RKey → Option β)
  | [], m => some m
  | k :: ks, m =>
    if (m k).isSome then delAllStrict ks (fun k' => if k' = k then none else m k')
    else none

/-- The per-key event handling of the teardown loop: `if k in
self.waiting_events: self.waiting_events[k].set(); del
self.waiting_events[k]` — the event object is set (recorded in the
detached list) and its dict entry removed. -/
def teardownEvents :
    List RKey → (RKey → Option Bool) → List RKey → (RKey → Option Bool) × List RKey
  | [], ev, det => (ev, det)
  | k :: ks, ev, det =>
    if (ev k).isSome then
      teardownEvents ks (fun k' => if k' = k then none else ev k') (k :: det)
    else teardownEvents ks ev det

/-- Source `teardown_session` without the audio-session wait (the
scratch-map model has no active audio sessions): deletes every key in
`store_keys[session_id]` from the store, sets and removes the matching
waiter events, clears the key list, deletes the session data and removes
the session from the active set.  `none` models a raised `KeyError`. -/
def teardown_session {V : Type} (st : CMState V) (sid : Nat) : Option (CMState V) :=
  if st.session_data sid = false then none
  else if st.active_sessions sid = false then none
  else
    match delAllStrict (st.store_keys sid) st.store with
    | none => none
    | some store' =>
      let r := teardownEvents (st.store_keys sid) st.waiting_events st.detached_set
      some { store := store'
             store_keys := fun s => if s = sid then [] else st.store_keys s
             waiting_events := r.1
             detached_set := r.2
             session_data := fun s => if s = sid then false else st.session_data s
             active_sessions := fun s => if s = sid then false else st.active_sessions s
             used_sids := st.used_sids }

/-- The scratch-map operations that mutate the manager state. -/
inductive CMOp (V : Type) where
  | newSession (sid : Nat)
  | registerOp (sid : Nat) (key : String) (v : Option V)
  | getOrWaitOp (sid : Nat) (key : String)
  | teardownOp (sid : Nat)

/-- One operation against the manager; `none` when the operation itself
raises.  A failing `get_or_wait` raises only in the calling task, leaving
the shared state intact, so it never aborts the run. -/
def CMStep {V : Type} (st : CMState V) : CMOp V → Option (CMState V)
  | .newSession sid => new_session st sid
  | .registerOp sid key v => register st sid key v
  | .getOrWaitOp sid key => some (get_or_wait_start st sid key).2
  | .teardownOp sid => teardown_session st sid

/-- A sequence of successful operations. -/
def CMRun {V : Type} (st : CMState V) : List (CMOp V) → Option (CMState V)
  | [] => some st
  | op :: ops =>
    match CMStep st op with
    | none => none
    | some st' => CMRun st' ops

/-- Reachable-state invariant of the scratch map. -/
structure CMInv {V : Type} (st : CMState V) : Prop where
  comp : ∀ sid k, k ∈ st.store_keys sid → k.2 = sid
  in_store : ∀ sid k, k ∈ st.store_keys sid → (st.store k).isSome = true
  nodup : ∀ sid, (st.store_keys sid).Nodup
  active_used : ∀ sid, st.active_sessions sid = true → st.used_sids sid = true

/-- A manager state holding exactly one fresh active session, id 1, with an
empty scratch map — the state right after `new_session`. -/
def cmA : CMState Nat :=
  { store := fun _ => none, store_keys := fun _ => [],
    waiting_events := fun _ => none, detached_set := [],
    session_data := fun s => s == 1, active_sessions := fun s => s == 1,
    used_sids := fun s => s == 1 }

theorem cmA_inv : CMInv cmA :=
  ⟨fun _ k hk => by simp [cmA] at hk, fun _ k hk => by simp [cmA] at hk,
   fun _ => by simp [cmA], fun _ h => h⟩

/-- The state of `cmA` after a `get_or_wait` on the never-registered key
`"nr"` has created its waiter event and blocked on it. -/
def cmF : CMState Nat :=
  { cmA with waiting_events := fun k => if k = ("nr", 1) then some false else none }

/-- The state of `cmF` after `teardown_session 1`. -/
def cmG : CMState Nat :=
  { cmF with
    store_keys := fun s => if s = 1 then [] else [],
    session_data := fun s => if s = 1 then false else cmF.session_data s,
    active_sessions := fun s => if s = 1 then false else cmF.active_sessions s }

/-- C2: a `get_or_wait` on a key that is never registered blocks on a fresh
unset event; `teardown_session` only sets the events of keys in
`store_keys[session_id]` (registered keys), so after a successful teardown
the waiter's event is still unset and not among the detached set events —
the waiter stays blocked forever, while the claim (and spec scenario S6)
requires it to be unblocked with failure. -/
theorem teardown_leaves_unregistered_waiter_blocked :
    (get_or_wait_start cmA 1 "nr").1 = GowOutcome.blocked
    ∧ (get_or_wait_start cmA 1 "nr").2 = cmF
    ∧ teardown_session cmF 1 = some cmG
    ∧ cmG.waiting_events ("nr", 1) = some false
    ∧ ("nr", 1) ∉ cmG.detached_set
    ∧ cmG.active_sessions 1 = false := by
  refine ⟨rfl, rfl, rfl, rfl, by simp [cmG, cmF, cmA], rfl⟩

/-- Like `cmA`, but an earlier `get_or_wait` on key `"k"` has already
created (and is blocked on) the waiter event for `("k", 1)`. -/
def cmW : CMState Nat :=
  { cmA with waiting_events := fun k => if k = ("k", 1) then some false else none }

/-- The state of `cmW` after `register 1 "k" None`: the value `None` is
stored and the pending waiter event is set. -/
def cmX : CMState Nat :=
  { cmW with
    store := fun k => if k = ("k", 1) then some none else none,
    store_keys := fun s => if s = 1 then [("k", 1)] else [],
    waiting_events := fun k => if k = ("k", 1) then some true else cmW.waiting_events k }

/-- C10 counterexample: when an earlier `get_or_wait` already created the
waiter event, `register(session, key, None)` sets it, and a `get_or_wait`
started afterwards does not block — the set event makes it return the
stored `None` immediately, so the registered `None` is observable at the
`get_or_wait` interface, contrary to the claim. -/
theorem get_or_wait_after_none_register_not_blocked :
    register cmW 1 "k" (none : Option Nat) = some cmX
    ∧ get cmX 1 "k" = some none
    ∧ (get_or_wait_start cmX 1 "k").1 = GowOutcome.resumed none
    ∧ (get_or_wait_start cmX 1 "k").1 ≠ GowOutcome.blocked := by
  refine ⟨rfl, rfl, rfl, by decide⟩

/-- C10 (amended): after `register(session, key, None)` succeeds on an
active session, `get` returns absent (`None`); and provided no waiter event
existed for that key when the register ran (no earlier `get_or_wait` on
it), a `get_or_wait` started afterwards blocks instead of returning the
stored value.  (If an earlier waiter had created the event, the register
sets it and a later `get_or_wait` returns `None` immediately.) -/
theorem register_none_reads_as_absent {V : Type} (st st' : CMState V)
    (sid : Nat) (key : String)
    (hev : st.waiting_events (key, sid) = none)
    (hreg : register st sid key (none : Option V) = some st') :
    get st' sid key = some none
    ∧ (get_or_wait_start st' sid key).1 = GowOutcome.blocked := by
  by_cases ha : st.active_sessions sid = false
  · simp [register, ha] at hreg
  · by_cases hs : (st.store (key, sid)).isSome = true
    · simp [register, ha, hs] at hreg
    · simp only [register, if_neg ha, hs, Bool.false_eq_true, if_false, Option.some.injEq]
        at hreg
      have ha' : st.active_sessions sid = true := by
        cases h : st.active_sessions sid
        · exact absurd h ha
        · rfl
      subst hreg
      constructor
      · simp [get, ha', hev]
      · simp [get_or_wait_start, ha', hev]

/-- The state of `cmA` after `register 1 "w" None` with no pending
waiter. -/
def cmD : CMState Nat :=
  { cmA with
    store := fun k => if k = ("w", 1) then some none else none,
    store_keys := fun s => if s = 1 then [("w", 1)] else [] }

/-- Witness for the amended C10 theorem at a concrete state: no waiter
event exists, the register succeeds, `get` sees absent and a subsequent
`get_or_wait` blocks. -/
theorem register_none_reads_as_absent_witness :
    cmA.waiting_events ("w", 1) = none
    ∧ register cmA 1 "w" (none : Option Nat) = some cmD
    ∧ get cmD 1 "w" = some none
    ∧ (get_or_wait_start cmD 1 "w").1 = GowOutcome.blocked :=
  ⟨rfl, rfl, (register_none_reads_as_absent cmA cmD 1 "w" rfl rfl).1,
    (register_none_reads_as_absent cmA cmD 1 "w" rfl rfl).2⟩

theorem delAllStrict_lookup {β : Type} (ks : List RKey) (m m' : RKey → Option β)
    (h : delAllStrict ks m = some m') (k : RKey) :
    m' k = if k ∈ ks then none else m k := by
  induction ks generalizing m with
  | nil =>
    simp only [delAllStrict, Option.some.injEq] at h
    subst h
    simp
  | cons k₀ rest ih =>
    by_cases h₀ : (m k₀).isSome = true
    · simp only [delAllStrict, if_pos h₀] at h
      rw [ih _ h]
      by_cases hk : k = k₀
      · simp [hk]
      · by_cases hr : k ∈ rest
        · simp [hr]
        · simp [hk, hr]
    · simp [delAllStrict, h₀] at h

/-- The second component of `get_or_wait_start` only ever changes the
`waiting_events` field. -/
theorem get_or_wait_start_fields {V : Type} (st : CMState V) (sid : Nat) (key : String) :
    (get_or_wait_start st sid key).2.store = st.store
    ∧ (get_or_wait_start st sid key).2.store_keys = st.store_keys
    ∧ (get_or_wait_start st sid key).2.session_data = st.session_data
    ∧ (get_or_wait_start st sid key).2.active_sessions = st.active_sessions
    ∧ (get_or_wait_start st sid key).2.used_sids = st.used_sids := by
  unfold get_or_wait_start
  split
  · exact ⟨rfl, rfl, rfl, rfl, rfl⟩
  · split
    · exact ⟨rfl, rfl, rfl, rfl, rfl⟩
    · split
      · split
        · exact ⟨rfl, rfl, rfl, rfl, rfl⟩
        · exact ⟨rfl, rfl, rfl, rfl, rfl⟩
      · exact ⟨rfl, rfl, rfl, rfl, rfl⟩

theorem new_session_inv {V : Type} (st st' : CMState V) (sid : Nat)
    (h : new_session st sid = some st') (hinv : CMInv st) : CMInv st' := by
  by_cases hu : st.used_sids sid
  · simp [new_session, hu] at h
  · simp only [new_session, hu, Bool.false_eq_true, if_false, Option.some.injEq] at h
    subst h
    refine ⟨hinv.comp, hinv.in_store, hinv.nodup, ?_⟩
    intro s hs
    by_cases hss : s = sid
    · simp [hss]
    · simp only [if_neg hss] at hs
      simp [hss, hinv.active_used s hs]

theorem register_inv {V : Type} (st st' : CMState V) (sid : Nat) (key : String)
    (v : Option V) (h : register st sid key v = some st') (hinv : CMInv st) :
    CMInv st' := by
  by_cases ha : st.active_sessions sid = false
  · simp [register, ha] at h
  · by_cases hs : (st.store (key, sid)).isSome = true
    · simp [register, ha, hs] at h
    · simp only [register, if_neg ha, hs, Bool.false_eq_true, if_false,
        Option.some.injEq] at h
      subst h
      refine ⟨?_, ?_, ?_, hinv.active_used⟩
      · intro s k hk
        dsimp only at hk
        by_cases hss : s = sid
        · subst hss
          rw [if_pos rfl, List.mem_append, List.mem_singleton] at hk
          rcases hk with hk | hk
          · exact hinv.comp s k hk
          · simp [hk]
        · rw [if_neg hss] at hk
          exact hinv.comp s k hk
      · intro s k hk
        dsimp only at hk ⊢
        by_cases hkk : k = (key, sid)
        · simp [hkk]
        · rw [if_neg hkk]
          by_cases hss : s = sid
          · subst hss
            rw [if_pos rfl, List.mem_append, List.mem_singleton] at hk
            rcases hk with hk | hk
            · exact hinv.in_store s k hk
            · exact absurd hk hkk
          · rw [if_neg hss] at hk
            exact hinv.in_store s k hk
      · intro s
        dsimp only
        by_cases hss : s = sid
        · subst hss
          rw [if_pos rfl, List.nodup_append]
          refine ⟨hinv.nodup s, List.nodup_singleton _, ?_⟩
          intro k hk hmem
          rw [List.mem_singleton] at hmem
          subst hmem
          exact hs (hinv.in_store _ _ hk)
        · rw [if_neg hss]
          exact hinv.nodup s

theorem teardown_inv {V : Type} (st st' : CMState V) (sid : Nat)
    (h : teardown_session st sid = some st') (hinv : CMInv st) : CMInv st' := by
  by_cases hd : st.session_data sid = false
  · simp [teardown_session, hd] at h
  · by_cases ha : st.active_sessions sid = false
    · simp [teardown_session, hd, ha] at h
    · cases hdel : delAllStrict (st.store_keys sid) st.store with
      | none => simp [teardown_session, hd, ha, hdel] at h
      | some store' =>
        unfold teardown_session at h
        rw [if_neg hd, if_neg ha, hdel] at h
        simp only [Option.some.injEq] at h
        subst h
        refine ⟨?_, ?_, ?_, ?_⟩
        · intro s k hk
          by_cases hss : s = sid
          · subst hss
            simp at hk
          · simp only [if_neg hss] at hk
            exact hinv.comp s k hk
        · intro s k hk
          by_cases hss : s = sid
          · subst hss
            simp at hk
          · simp only [if_neg hss] at hk
            have hmem : k ∉ st.store_keys sid := by
              intro hc
              exact hss ((hinv.comp s k hk).symm.trans (hinv.comp sid k hc))
            simp only [delAllStrict_lookup _ _ _ hdel k, if_neg hmem]
            exact hinv.in_store s k hk
        · intro s
          by_cases hss : s = sid
          · subst hss
            simp
          · simp only [if_neg hss]
            exact hinv.nodup s
        · intro s hs
          by_cases hss : s = sid
          · simp [hss] at hs
          · simp only [if_neg hss] at hs
            exact hinv.active_used s hs

theorem step_inv {V : Type} (st st' : CMState V) (op : CMOp V)
    (h : CMStep st op = some st') (hinv : CMInv st) : CMInv st' := by
  cases op with
  | newSession sid => exact new_session_inv st st' sid h hinv
  | registerOp sid key v => exact register_inv st st' sid key v h hinv
  | getOrWaitOp sid key =>
    simp only [CMStep, Option.some.injEq] at h
    subst h
    obtain ⟨h1, h2, h3, h4, h5⟩ := get_or_wait_start_fields st sid key
    exact ⟨by rw [h2]; exact hinv.comp, by rw [h1, h2]; exact hinv.in_store,
      by rw [h2]; exact hinv.nodup, by rw [h4, h5]; exact hinv.active_used⟩
  | teardownOp sid => exact teardown_inv st st' sid h hinv

theorem run_inv {V : Type} (ops : List (CMOp V)) (st st' : CMState V)
    (h : CMRun st ops = some st') (hinv : CMInv st) : CMInv st' := by
  induction ops generalizing st with
  | nil =>
    simp only [CMRun, Option.some.injEq] at h
    subst h
    exact hinv
  | cons op rest ih =>
    simp only [CMRun] at h
    cases hstep : CMStep st op with
    | none => rw [hstep] at h; exact absurd h (by simp)
    | some st₁ =>
      rw [hstep] at h
      exact ih st₁ h (step_inv st st₁ op hstep hinv)

/-- The property tracked for C9: the session is active and the key is bound
to the registered value. -/
def CMBound {V : Type} (sid : Nat) (key : String) (v : Option V) (st : CMState V) : Prop :=
  st.active_sessions sid = true ∧ st.store (key, sid) = some v

theorem step_preserves_bound {V : Type} (st st' : CMState V) (op : CMOp V)
    (sid : Nat) (key : String) (v : Option V)
    (hinv : CMInv st) (hb : CMBound sid key v st)
    (h : CMStep st op = some st') (hop : op ≠ CMOp.teardownOp sid) :
    CMBound sid key v st' := by
  cases op with
  | newSession sid' =>
    by_cases hu : st.used_sids sid'
    · simp [CMStep, new_session, hu] at h
    · simp only [CMStep, new_session, hu, Bool.false_eq_true, if_false,
        Option.some.injEq] at h
      subst h
      have hne : sid ≠ sid' := by
        intro hE
        rw [hE] at hb
        exact hu (hinv.active_used sid' hb.1)
      exact ⟨by dsimp only; rw [if_neg hne]; exact hb.1, hb.2⟩
  | registerOp sid' key' v' =>
    by_cases ha : st.active_sessions sid' = false
    · simp [CMStep, register, ha] at h
    · by_cases hs : (st.store (key', sid')).isSome = true
      · simp [CMStep, register, ha, hs] at h
      · simp only [CMStep, register, if_neg ha, hs, Bool.false_eq_true, if_false,
          Option.some.injEq] at h
        subst h
        have hne : (key, sid) ≠ (key', sid') := by
          intro hE
          apply hs
          rw [← hE, hb.2]
          rfl
        exact ⟨hb.1, by dsimp only; rw [if_neg hne]; exact hb.2⟩
  | getOrWaitOp sid' key' =>
    simp only [CMStep, Option.some.injEq] at h
    subst h
    obtain ⟨h1, _, _, h4, _⟩ := get_or_wait_start_fields st sid' key'
    exact ⟨by rw [h4]; exact hb.1, by rw [h1]; exact hb.2⟩
  | teardownOp sid' =>
    have hne : sid' ≠ sid := by
      intro hE
      exact hop (by rw [hE])
    by_cases hd : st.session_data sid' = false
    · simp [CMStep, teardown_session, hd] at h
    · by_cases ha : st.active_sessions sid' = false
      · simp [CMStep, teardown_session, hd, ha] at h
      · cases hdel : delAllStrict (st.store_keys sid') st.store with
        | none => simp [CMStep, teardown_session, hd, ha, hdel] at h
        | some store' =>
          simp only [CMStep] at h
          unfold teardown_session at h
          rw [if_neg hd, if_neg ha, hdel] at h
          simp only [Option.some.injEq] at h
          subst h
          constructor
          · dsimp only
            rw [if_neg (Ne.symm hne)]
            exact hb.1
          · dsimp only
            rw [delAllStrict_lookup _ _ _ hdel]
            rw [if_neg ?_]
            · exact hb.2
            · intro hc
              exact hne (hinv.comp sid' (key, sid) hc).symm

theorem run_preserves_bound {V : Type} (ops : List (CMOp V)) (st st' : CMState V)
    (sid : Nat) (key : String) (v : Option V)
    (hinv : CMInv st) (hb : CMBound sid key v st)
    (h : CMRun st ops = some st') (hnotd : CMOp.teardownOp sid ∉ ops) :
    CMBound sid key v st' := by
  induction ops generalizing st with
  | nil =>
    simp only [CMRun, Option.some.injEq] at h
    subst h
    exact hb
  | cons op rest ih =>
    simp only [CMRun] at h
    rw [List.mem_cons, not_or] at hnotd
    cases hstep : CMStep st op with
    | none => rw [hstep] at h; exact absurd h (by simp)
    | some st₁ =>
      rw [hstep] at h
      exact ih st₁ (step_inv st st₁ op hstep hinv)
        (step_preserves_bound st st₁ op sid key v hinv hb hstep
          (fun hE => hnotd.1 hE.symm)) h hnotd.2

/-- The property tracked for the after-teardown half of C9: the session id
has been allocated at some point and is no longer active. -/
def CMGone {V : Type} (sid : Nat) (st : CMState V) : Prop :=
  st.used_sids sid = true ∧ st.active_sessions sid = false

theorem step_preserves_gone {V : Type} (st st' : CMState V) (op : CMOp V) (sid : Nat)
    (h : CMStep st op = some st') (hg : CMGone sid st) : CMGone sid st' := by
  cases op with
  | newSession sid' =>
    by_cases hu : st.used_sids sid'
    · simp [CMStep, new_session, hu] at h
    · simp only [CMStep, new_session, hu, Bool.false_eq_true, if_false,
        Option.some.injEq] at h
      subst h
      have hne : sid ≠ sid' := by
        intro hE
        rw [hE] at hg
        exact hu hg.1
      exact ⟨by dsimp only; rw [if_neg hne]; exact hg.1,
        by dsimp only; rw [if_neg hne]; exact hg.2⟩
  | registerOp sid' key' v' =>
    by_cases ha : st.active_sessions sid' = false
    · simp [CMStep, register, ha] at h
    · by_cases hs : (st.store (key', sid')).isSome = true
      · simp [CMStep, register, ha, hs] at h
      · simp only [CMStep, register, if_neg ha, hs, Bool.false_eq_true, if_false,
          Option.some.injEq] at h
        subst h
        exact hg
  | getOrWaitOp sid' key' =>
    simp only [CMStep, Option.some.injEq] at h
    subst h
    obtain ⟨_, _, _, h4, h5⟩ := get_or_wait_start_fields st sid' key'
    exact ⟨by rw [h5]; exact hg.1, by rw [h4]; exact hg.2⟩
  | teardownOp sid' =>
    by_cases hd : st.session_data sid' = false
    · simp [CMStep, teardown_session, hd] at h
    · by_cases ha : st.active_sessions sid' = false
      · simp [CMStep, teardown_session, hd, ha] at h
      · cases hdel : delAllStrict (st.store_keys sid') st.store with
        | none => simp [CMStep, teardown_session, hd, ha, hdel] at h
        | some store' =>
          simp only [CMStep] at h
          unfold teardown_session at h
          rw [if_neg hd, if_neg ha, hdel] at h
          simp only [Option.some.injEq] at h
          subst h
          refine ⟨hg.1, ?_⟩
          dsimp only
          by_cases hss : sid = sid'
          · rw [if_pos hss]
          · rw [if_neg hss]
            exact hg.2

theorem run_preserves_gone {V : Type} (ops : List (CMOp V)) (st st' : CMState V)
    (sid : Nat) (h : CMRun st ops = some st') (hg : CMGone sid st) : CMGone sid st' := by
  induction ops generalizing st with
  | nil =>
    simp only [CMRun, Option.some.injEq] at h
    subst h
    exact hg
  | cons op rest ih =>
    simp only [CMRun] at h
    cases hstep : CMStep st op with
    | none => rw [hstep] at h; exact absurd h (by simp)
    | some st₁ =>
      rw [hstep] at h
      exact ih st₁ h (step_preserves_gone st st₁ op sid hstep hg)

/-- C9: from any state satisfying the scratch-map invariant, once
`register(session, key, value)` succeeds, every later `get(session, key)`
returns exactly the registered value (a stored Python `None` included) as
long as no `teardown(session)` has run, no matter which other successful
operations are interleaved; and once `teardown(session)` succeeds, every
later `get(session, key)` fails its session-active assertion — ULID
session ids are never reused, so the session can never become active
again. -/
theorem register_get_roundtrip {V : Type} (st st₁ st₂ : CMState V) (sid : Nat)
    (key : String) (v : Option V) (ops : List (CMOp V))
    (hinv : CMInv st)
    (hreg : register st sid key v = some st₁)
    (hrun : CMRun st₁ ops = some st₂)
    (hnotd : CMOp.teardownOp sid ∉ ops) :
    get st₂ sid key = some v
    ∧ (∀ st₃ st₄ (ops2 : List (CMOp V)), teardown_session st₂ sid = some st₃ →
        CMRun st₃ ops2 = some st₄ → get st₄ sid key = none) := by
  have hinv₁ : CMInv st₁ := register_inv st st₁ sid key v hreg hinv
  have hb₁ : CMBound sid key v st₁ := by
    by_cases ha : st.active_sessions sid = false
    · simp [register, ha] at hreg
    · by_cases hs : (st.store (key, sid)).isSome = true
      · simp [register, ha, hs] at hreg
      · simp only [register, if_neg ha, hs, Bool.false_eq_true, if_false,
          Option.some.injEq] at hreg
        subst hreg
        constructor
        · dsimp only
          cases hA : st.active_sessions sid
          · exact absurd hA ha
          · rfl
        · dsimp only
          rw [if_pos rfl]
  have hinv₂ : CMInv st₂ := run_inv ops st₁ st₂ hrun hinv₁
  have hb₂ : CMBound sid key v st₂ :=
    run_preserves_bound ops st₁ st₂ sid key v hinv₁ hb₁ hrun hnotd
  constructor
  · simp [get, hb₂.1, hb₂.2]
  · intro st₃ st₄ ops2 htd hrun2
    have hg₃ : CMGone sid st₃ := by
      by_cases hd : st₂.session_data sid = false
      · simp [teardown_session, hd] at htd
      · by_cases ha : st₂.active_sessions sid = false
        · simp [teardown_session, hd, ha] at htd
        · cases hdel : delAllStrict (st₂.store_keys sid) st₂.store with
          | none => simp [teardown_session, hd, ha, hdel] at htd
          | some store' =>
            unfold teardown_session at htd
            rw [if_neg hd, if_neg ha, hdel] at htd
            simp only [Option.some.injEq] at htd
            subst htd
            exact ⟨hinv₂.active_used sid hb₂.1, by dsimp only; rw [if_pos rfl]⟩
    have hg₄ := run_preserves_gone ops2 st₃ st₄ sid hrun2 hg₃
    simp [get, hg₄.2]

/-- The state of `cmA` after `register 1 "pc" (some 7)`. -/
def cmB : CMState Nat :=
  { cmA with
    store := fun k => if k = ("pc", 1) then some (some 7) else none,
    store_keys := fun s => if s = 1 then [("pc", 1)] else [] }

/-- The state of `cmB` after `teardown_session 1`. -/
def cmC : CMState Nat :=
  { store := fun k => if k = ("pc", 1) then none else cmB.store k,
    store_keys := fun s => if s = 1 then [] else cmB.store_keys s,
    waiting_events := cmB.waiting_events,
    detached_set := [],
    session_data := fun s => if s = 1 then false else cmB.session_data s,
    active_sessions := fun s => if s = 1 then false else cmB.active_sessions s,
    used_sids := cmB.used_sids }

/-- Witness for the C9 theorem at a concrete state: register value 7 under
key `"pc"` in session 1 of `cmA`, read it back, tear down, and observe
`get` failing. -/
theorem register_get_roundtrip_witness :
    register cmA 1 "pc" (some 7) = some cmB
    ∧ teardown_session cmB 1 = some cmC
    ∧ get cmB 1 "pc" = some (some 7)
    ∧ get cmC 1 "pc" = none := by
  have h := register_get_roundtrip cmA cmB cmB 1 "pc" (some 7) [] cmA_inv rfl rfl
    (by simp)
  exact ⟨rfl, rfl, h.1, h.2 cmC cmC [] rfl rfl⟩

/-! ## Text coalescer (`TextCoalescer.py`) -/

/-- Counts maximal runs of non-whitespace characters. -/
def countWordsAux : List Char → Bool → Nat → Nat
  | [], _, n => n
  | c :: cs, inWord, n =>
    if c.isWhitespace then countWordsAux cs false n
    else if inWord then countWordsAux cs true n
    else countWordsAux cs true (n + 1)

/-- Python `len(text.split())`: the number of maximal whitespace-separated
words of the fragment (empty pieces are dropped by `str.split()` with no
arguments). -/
def pyWordCount (s : String) : Nat := countWordsAux s.data false 0

/-- What `self._recv.receive()` can yield next on the schedule: a queued
fragment, the `move_on_after` timeout firing during the wait, or the
producer side being closed (making `receive()` raise
`anyio.EndOfStream`). -/
inductive CoEv where
  | item (text : String) (tid : Nat)
  | timeout
  | close
deriving DecidableEq, Repr

/-- Local state of `TextCoalescer.run`: `buffer`, `word_count`,
`last_transcript_id`. -/
structure CoState where
  buffer : List String
  word_count : Nat
  last_transcript_id : Option Nat
deriving DecidableEq, Repr

/-- How the inner `while word_count < self.word_threshold` receive loop was
left. -/
inductive InnerExit where
  | threshold
  | timedOut
  | eos
  | pending
deriving DecidableEq, Repr

/-- The inner receive loop of `run`: while the word count is below the
threshold, receive the next event; a fragment is appended to the buffer
(its words counted, its id remembered), a firing timeout cancels the wait,
and a closed stream raises `EndOfStream`.  `pending` marks a schedule that
ends while the loop is still waiting (the stream stays open and idle).
Returns the loop state, the unconsumed schedule, and how the loop exited. -/
def coalescer_recv_loop (W : Nat) : List CoEv → CoState → CoState × List CoEv × InnerExit
  | [], st =>
    if W ≤ st.word_count then (st, [], InnerExit.threshold)
    else (st, [], InnerExit.pending)
  | ev :: rest, st =>
    if W ≤ st.word_count then (st, ev :: rest, InnerExit.threshold)
    else
      match ev with
      | CoEv.item t tid =>
        coalescer_recv_loop W rest
          ⟨st.buffer ++ [t], st.word_count + pyWordCount t, some tid⟩
      | CoEv.timeout => (st, rest, InnerExit.timedOut)
      | CoEv.close => (st, rest, InnerExit.eos)

/-- Result of a whole `run`: a clean return, the uncaught
`anyio.EndOfStream` propagating out (which skips the final-flush code), an
exhausted schedule with the loop still blocked, a failed
`assert last_transcript_id is not None`, or exhausted fuel.  Each carries
the transcript ids passed to `handler`, in call order. -/
inductive RunOutcome where
  | clean (flushes : List Nat)
  | endOfStream (flushes : List Nat)
  | stillWaiting (flushes : List Nat)
  | assertFailed (flushes : List Nat)
  | fuelOut (flushes : List Nat)
deriving DecidableEq, Repr

/-- The outer `while True` loop of `run`.  On a threshold or timeout exit
with a non-empty buffer it clears the buffer, zeroes the counter and calls
`handler(last_transcript_id)`; with an empty buffer it continues after a
caught timeout and otherwise breaks out — and the final flush after the
loop is guarded by a non-empty buffer, so the break path flushes nothing.
An `EndOfStream` exit propagates the exception, skipping the final-flush
code entirely.  `fuel` bounds the iterations; `coalescer_run` supplies
enough fuel for any schedule. -/
def coalescer_run_loop (W : Nat) : Nat → List CoEv → CoState → List Nat → RunOutcome
  | 0, _, _, fl => RunOutcome.fuelOut fl.reverse
  | fuel + 1, evs, st, fl =>
    let r := coalescer_recv_loop W evs st
    match r.2.2 with
    | InnerExit.pending => RunOutcome.stillWaiting fl.reverse
    | InnerExit.eos => RunOutcome.endOfStream fl.reverse
    | _ =>
      if r.1.buffer.isEmpty then
        if r.2.2 = InnerExit.timedOut then coalescer_run_loop W fuel r.2.1 r.1 fl
        else RunOutcome.clean fl.reverse
      else
        match r.1.last_transcript_id with
        | none => RunOutcome.assertFailed fl.reverse
        | some tid => coalescer_run_loop W fuel r.2.1 ⟨[], 0, some tid⟩ (tid :: fl)

/-- `TextCoalescer.run` on a finite schedule, started with an empty buffer.
Every outer iteration except a final empty-buffer break consumes at least
one schedule event, so `evs.length + 1` fuel is never exhausted. -/
def coalescer_run (W : Nat) (evs : List CoEv) : RunOutcome :=
  coalescer_run_loop W (evs.length + 1) evs ⟨[], 0, none⟩ []

/-- C7: on producer close, `receive()` raises `anyio.EndOfStream` and
nothing in `run` catches it: with a fragment buffered the run ends with the
propagated exception and no final flush, and with nothing buffered it also
ends with the exception instead of exiting cleanly.  The code's own
comments ("Stream closed cleanly with nothing buffered: exit", "Final
flush on stream close (if anything remains)") describe the claimed
behaviour, but the `break` they guard is unreachable for positive
thresholds and the final-flush line is dead code. -/
theorem coalescer_close_raises_end_of_stream :
    coalescer_run 100 [CoEv.item "hello world" 7, CoEv.close]
        = RunOutcome.endOfStream []
    ∧ coalescer_run 100 [CoEv.close] = RunOutcome.endOfStream [] :=
  ⟨rfl, rfl⟩

/-- One receive-loop round appends the texts of the received fragments to
the buffer, and the last transcript id afterwards is the id of the last
received fragment (or unchanged when none was received). -/
theorem coalescer_recv_loop_spec (W : Nat) (evs : List CoEv) (st : CoState) :
    ∃ pre : List (String × Nat),
      (coalescer_recv_loop W evs st).1.buffer = st.buffer ++ pre.map Prod.fst
      ∧ ((pre = [] ∧ (coalescer_recv_loop W evs st).1.last_transcript_id
            = st.last_transcript_id)
        ∨ ∃ p, pre.getLast? = some p
            ∧ (coalescer_recv_loop W evs st).1.last_transcript_id = some p.2) := by
  induction evs generalizing st with
  | nil =>
    by_cases h : W ≤ st.word_count <;>
      exact ⟨[], by simp [coalescer_recv_loop, h],
        Or.inl ⟨rfl, by simp [coalescer_recv_loop, h]⟩⟩
  | cons ev rest ih =>
    by_cases h : W ≤ st.word_count
    · exact ⟨[], by simp [coalescer_recv_loop, h],
        Or.inl ⟨rfl, by simp [coalescer_recv_loop, h]⟩⟩
    · cases ev with
      | item t tid =>
        have heq : coalescer_recv_loop W (CoEv.item t tid :: rest) st
            = coalescer_recv_loop W rest
                ⟨st.buffer ++ [t], st.word_count + pyWordCount t, some tid⟩ := by
          simp [coalescer_recv_loop, h]
        obtain ⟨pre', hbuf, hlast⟩ :=
          ih ⟨st.buffer ++ [t], st.word_count + pyWordCount t, some tid⟩
        refine ⟨(t, tid) :: pre', ?_, ?_⟩
        · rw [heq, hbuf]
          simp
        · rcases hlast with ⟨hpre, hl⟩ | ⟨p, hp, hl⟩
          · subst hpre
            exact Or.inr ⟨(t, tid), by simp, by rw [heq]; exact hl⟩
          · refine Or.inr ⟨p, ?_, by rw [heq]; exact hl⟩
            cases pre' with
            | nil => simp at hp
            | cons q qs => rw [List.getLast?_cons_cons]; exact hp
      | timeout =>
        exact ⟨[], by simp [coalescer_recv_loop, h],
          Or.inl ⟨rfl, by simp [coalescer_recv_loop, h]⟩⟩
      | close =>
        exact ⟨[], by simp [coalescer_recv_loop, h],
          Or.inl ⟨rfl, by simp [coalescer_recv_loop, h]⟩⟩

/-- C5: in a window that starts with an empty buffer (as every window
does), if the receive loop exits by reaching the word threshold W or by
the timeout firing, then with at least one fragment buffered the run makes
exactly one handler call, carrying the transcript id of the latest
buffered fragment, and continues with the buffer and word counter reset;
and with an empty buffer no handler call is made (the run continues after
a caught timeout, or breaks out cleanly) — the handler is never invoked
with an empty buffer. -/
theorem coalescer_flush_contract (W fuel : Nat) (evs : List CoEv) (st : CoState)
    (fl : List Nat) (st' : CoState) (rest : List CoEv) (ex : InnerExit)
    (hbuf : st.buffer = [])
    (hrecv : coalescer_recv_loop W evs st = (st', rest, ex))
    (hex : ex = InnerExit.threshold ∨ ex = InnerExit.timedOut) :
    (st'.buffer ≠ [] →
       ∃ (pre : List (String × Nat)) (p : String × Nat), pre.getLast? = some p
         ∧ st'.buffer = pre.map Prod.fst
         ∧ st'.last_transcript_id = some p.2
         ∧ coalescer_run_loop W (fuel + 1) evs st fl
             = coalescer_run_loop W fuel rest ⟨[], 0, some p.2⟩ (p.2 :: fl))
    ∧ (st'.buffer = [] →
       coalescer_run_loop W (fuel + 1) evs st fl
         = if ex = InnerExit.timedOut then coalescer_run_loop W fuel rest st' fl
           else RunOutcome.clean fl.reverse) := by
  obtain ⟨pre, hb, hlast⟩ := coalescer_recv_loop_spec W evs st
  rw [hrecv] at hb hlast
  dsimp only at hb hlast
  rw [hbuf] at hb
  rw [List.nil_append] at hb
  constructor
  · intro hne
    have hpre : pre ≠ [] := by
      intro hE
      subst hE
      simp only [List.map_nil] at hb
      exact hne hb
    rcases hlast with ⟨hE, _⟩ | ⟨p, hp, hl⟩
    · exact absurd hE hpre
    · refine ⟨pre, p, hp, hb, hl, ?_⟩
      have hie : ¬ st'.buffer.isEmpty = true := by
        simp only [List.isEmpty_iff]
        exact hne
      rcases hex with rfl | rfl
      · simp only [coalescer_run_loop, hrecv]
        rw [if_neg hie, hl]
      · simp only [coalescer_run_loop, hrecv]
        rw [if_neg hie, hl]
  · intro hE
    have hie : st'.buffer.isEmpty = true := by
      simp [List.isEmpty_iff, hE]
    rcases hex with rfl | rfl
    · simp only [coalescer_run_loop, hrecv]
      rw [if_pos hie]
    · simp only [coalescer_run_loop, hrecv]
      rw [if_pos hie]

/-- Witness for the C5 theorem: W = 3, one three-word fragment (tid 5)
arrives and the threshold is reached; exactly one flush with tid 5 is
recorded and the window state is reset. -/
theorem coalescer_flush_contract_witness :
    coalescer_recv_loop 3 [CoEv.item "a b c" 5, CoEv.timeout] ⟨[], 0, none⟩
      = (⟨["a b c"], 3, some 5⟩, [CoEv.timeout], InnerExit.threshold)
    ∧ (∃ (pre : List (String × Nat)) (p : String × Nat), pre.getLast? = some p
        ∧ (⟨["a b c"], 3, some 5⟩ : CoState).buffer = pre.map Prod.fst
        ∧ (⟨["a b c"], 3, some 5⟩ : CoState).last_transcript_id = some p.2
        ∧ coalescer_run_loop 3 2 [CoEv.item "a b c" 5, CoEv.timeout] ⟨[], 0, none⟩ []
            = coalescer_run_loop 3 1 [CoEv.timeout] ⟨[], 0, some p.2⟩ (p.2 :: [])) := by
  refine ⟨rfl, ?_⟩
  exact (coalescer_flush_contract 3 1 [CoEv.item "a b c" 5, CoEv.timeout]
      ⟨[], 0, none⟩ [] ⟨["a b c"], 3, some 5⟩ [CoEv.timeout] InnerExit.threshold rfl rfl
      (Or.inl rfl)).1 (by simp)

/-! ## AI worker pool (`AppContextManager._worker`) -/

/-- Pool state: the pairs `(worker, session)` for workers currently inside
`async with self.active_ai_analysis[session]`, i.e. with an `analyze` call
in flight for that session. -/
structure WorkerPoolState where
  inFlight : List (Nat × Nat)
deriving DecidableEq, Repr

/-- Source `self.active_ai_analysis[job.session_id].locked()`: the
per-session `anyio.Lock` is held exactly when some worker has an analysis
in flight for that session. -/
def sessionLocked (st : WorkerPoolState) (sid : Nat) : Bool :=
  st.inFlight.any fun p => p.2 == sid

/-- A worker not currently inside an `analyze` call (it sits at
`async for job in recv`). -/
def workerIdle (st : WorkerPoolState) (w : Nat) : Bool :=
  st.inFlight.all fun p => p.1 != w

/-- Scheduler events: an idle worker receives the next job from the shared
queue, or a worker's `analyze` call completes (returning or raising — the
`async with` releases the lock either way). -/
inductive WEv where
  | recv (w : Nat) (sid : Nat)
  | finish (w : Nat)
deriving DecidableEq, Repr

/-- Observable effect of one event. -/
inductive WEffect where
  | dropped
  | started
  | finished
  | ignored
deriving DecidableEq, Repr

/-- One iteration of the `_worker` loop body.  The `locked()` check and the
`async with` acquisition have no intervening await point, so together they
are one atomic step of the cooperative scheduler: if the session lock is
held the job is dropped (`continue`) without calling `analyze`; otherwise
the lock is acquired and an analysis starts.  A busy worker cannot receive
(it is awaiting `analyze`), so such an event is a no-op. -/
def worker_step (st : WorkerPoolState) : WEv → WorkerPoolState × WEffect
  | WEv.recv w sid =>
    if workerIdle st w then
      if sessionLocked st sid then (st, WEffect.dropped)
      else (⟨(w, sid) :: st.inFlight⟩, WEffect.started)
    else (st, WEffect.ignored)
  | WEv.finish w => (⟨st.inFlight.filter fun p => p.1 != w⟩, WEffect.finished)

/-- A run of the pool from the all-idle boot state. -/
def worker_run (evs : List WEv) : WorkerPoolState :=
  evs.foldl (fun st ev => (worker_step st ev).1) ⟨[]⟩

theorem worker_run_countP (evs : List WEv) (sid : Nat) :
    (worker_run evs).inFlight.countP (fun p => p.2 == sid) ≤ 1 := by
  suffices h : ∀ st : WorkerPoolState,
      st.inFlight.countP (fun p => p.2 == sid) ≤ 1 →
      (evs.foldl (fun s ev => (worker_step s ev).1) st).inFlight.countP
          (fun p => p.2 == sid) ≤ 1 by
    exact h ⟨[]⟩ (by simp)
  induction evs with
  | nil => intro st h; simpa using h
  | cons ev rest ih =>
    intro st h
    simp only [List.foldl_cons]
    apply ih
    cases ev with
    | recv w sid' =>
      by_cases hidle : workerIdle st w = true
      · by_cases hlock : sessionLocked st sid' = true
        · simpa [worker_step, hidle, hlock] using h
        · have hstep : (worker_step st (WEv.recv w sid')).1
              = ⟨(w, sid') :: st.inFlight⟩ := by
            simp [worker_step, hidle, hlock]
          rw [hstep]
          simp only [List.countP_cons]
          by_cases hss : ((w, sid').2 == sid) = true
          · have hz : st.inFlight.countP (fun p => p.2 == sid) = 0 := by
              rw [List.countP_eq_zero]
              intro a ha hcontra
              have ha2 : a.2 = sid := by simpa using hcontra
              have hs2 : sid' = sid := by simpa using hss
              apply hlock
              simp only [sessionLocked, List.any_eq_true]
              exact ⟨a, ha, by simp [ha2, hs2]⟩
            simp [hz, hss]
          · rw [Bool.not_eq_true] at hss
            simp only [hss, Bool.false_eq_true, if_false, Nat.add_zero]
            exact h
      · simpa [worker_step, hidle] using h
    | finish w =>
      have hstep : (worker_step st (WEv.finish w)).1
          = ⟨st.inFlight.filter fun p => p.1 != w⟩ := rfl
      rw [hstep]
      exact le_trans ((List.filter_sublist _).countP_le _) h

/-- C6: along any schedule of job receipts and analysis completions, at
most one `analyze` call is in flight per session at every moment; and a
job received by an idle worker while that session's analysis lock is held
is dropped — the state is unchanged and the analyzer is not invoked. -/
theorem at_most_one_analysis_per_session (evs : List WEv) (sid w : Nat) :
    (worker_run evs).inFlight.countP (fun p => p.2 == sid) ≤ 1
    ∧ (workerIdle (worker_run evs) w = true →
       sessionLocked (worker_run evs) sid = true →
       worker_step (worker_run evs) (WEv.recv w sid)
         = (worker_run evs, WEffect.dropped)) := by
  refine ⟨worker_run_countP evs sid, ?_⟩
  intro hidle hlock
  simp [worker_step, hidle, hlock]

/-- Witness for the C6 theorem: worker 0 starts analysing session 3;
worker 1 then receives another job for session 3 and drops it. -/
theorem at_most_one_analysis_witness :
    workerIdle (worker_run [WEv.recv 0 3]) 1 = true
    ∧ sessionLocked (worker_run [WEv.recv 0 3]) 3 = true
    ∧ (worker_run [WEv.recv 0 3]).inFlight.countP (fun p => p.2 == 3) ≤ 1
    ∧ worker_step (worker_run [WEv.recv 0 3]) (WEv.recv 1 3)
        = (worker_run [WEv.recv 0 3], WEffect.dropped) :=
  ⟨by decide, by decide, (at_most_one_analysis_per_session [WEv.recv 0 3] 3 1).1,
    (at_most_one_analysis_per_session [WEv.recv 0 3] 3 1).2 (by decide) (by decide)⟩

end InterviewHelper
